import Mathlib

/-!
Shallow embedding of the charting engine of the weather-banner repository
(src/lib.rs together with the fragments of src/render.rs, src/time.rs and
src/gsod.rs that the properties below touch), and proofs about it.

Modelling conventions:
* f64 values are modelled as exact rationals; f64 comparisons and arithmetic
  become exact rational comparisons and arithmetic.
* A division whose denominator is zero produces a non-finite f64 value
  (infinity or NaN); such a result is modelled as Option.none.
* Rust isize remainder truncates toward zero and is modelled by Int.tmod;
  isize division truncates toward zero and is modelled by Int.tdiv.
* The f64 sentinels f64::MIN and f64::MAX are modelled by their exact
  rational values.
* A Rust panic is modelled by Except.error carrying the panic message.
-/

namespace Weather

/-- Exact rational value of f64::MAX, the sentinel initializing the running
minimum in Series::from_iterator. -/
def f64MAX : ℚ := 2 ^ 1024 - 2 ^ 971

/-- Exact rational value of f64::MIN, the sentinel initializing the running
maximum in Series::from_iterator. -/
def f64MIN : ℚ := -f64MAX

/-- Translation of struct Unit (lib.rs): a wrapped scalar. -/
structure Unit where
  v : ℚ
deriving DecidableEq

/-- Translation of struct Range (lib.rs). -/
structure Range where
  min : ℚ
  max : ℚ
deriving DecidableEq

/-- Translation of Range::normalize (lib.rs lines 127 to 130): the value
(v - min) / rng with rng = max - min. In f64 a zero rng makes the division
produce a non-finite value, modelled here as none. -/
def Range.normalize (r : Range) (v : ℚ) : Option Unit :=
  let rng := r.max - r.min
  if rng = 0 then none else some ⟨(v - r.min) / rng⟩

/-- Translation of Range::project (lib.rs lines 132 to 135). -/
def Range.project (r : Range) (u : Unit) : ℚ :=
  let rng := r.max - r.min
  r.min + u.v * rng

/-- Translation of Range::intersect (lib.rs lines 137 to 142). -/
def Range.intersect (a b : Range) : Range :=
  { min := Min.min a.min b.min, max := Max.max a.max b.max }

/-- Translation of struct Series (lib.rs lines 169 to 175). -/
structure Series where
  vals : List ℚ
  rng : Range
  min_index : ℤ
  max_index : ℤ
deriving DecidableEq

/-- Loop state of Series::from_iterator (lib.rs lines 182 to 187): the dense
array built so far, the carry-forward value prev, the running extrema with
their indices, and the enumeration index i. -/
structure IterState where
  vals : List ℚ
  prev : ℚ
  max : ℚ
  min : ℚ
  max_index : ℕ
  min_index : ℕ
  i : ℕ
deriving DecidableEq

/-- One iteration of the for loop in Series::from_iterator (lib.rs lines
188 to 204). -/
def iterStep (st : IterState) (item : Option ℚ) : IterState :=
  match item with
  | some val =>
      let st1 := if val > st.max then { st with max := val, max_index := st.i }
                 else st
      let st2 := if val < st1.min then { st1 with min := val, min_index := st1.i }
                 else st1
      { st2 with vals := st2.vals ++ [val], prev := val, i := st2.i + 1 }
  | none => { st with vals := st.vals ++ [st.prev], i := st.i + 1 }

/-- Translation of Series::from_iterator (lib.rs lines 178 to 212). -/
def Series.from_iterator (items : List (Option ℚ)) : Series :=
  let st := items.foldl iterStep ⟨[], 0, f64MIN, f64MAX, 0, 0, 0⟩
  ⟨st.vals, ⟨st.min, st.max⟩, st.min_index, st.max_index⟩

/-- Fill rule of the spec (Series construction step 3): a present value is
stored as-is and becomes the carry-forward value; a missing value is stored
as a copy of the carry-forward value. -/
def fillForward (prev : ℚ) : List (Option ℚ) → List ℚ
  | [] => []
  | some v :: rest => v :: fillForward v rest
  | none :: rest => prev :: fillForward prev rest

/-- The present values of an optional-scalar sequence paired with their
indices, enumeration starting at k. -/
def presentFrom (k : ℕ) (items : List (Option ℚ)) : List (ℕ × ℚ) :=
  (List.enumFrom k items).filterMap (fun p => p.2.map (fun v => (p.1, v)))

/-- Extremum-tracking state of the spec (Series construction step 4). -/
structure ExtrState where
  max : ℚ
  max_index : ℕ
  min : ℚ
  min_index : ℕ
deriving DecidableEq

/-- Running-extremum update over one present value, using strict comparisons
only, so ties on exact equality keep the earlier index. -/
def extrStep (st : ExtrState) (p : ℕ × ℚ) : ExtrState :=
  let st1 := if p.2 > st.max then { st with max := p.2, max_index := p.1 }
             else st
  if p.2 < st1.min then { st1 with min := p.2, min_index := p.1 } else st1

/-- Extrema over present values only, seeded with the f64 sentinels. -/
def extremaOf (items : List (Option ℚ)) : ExtrState :=
  (presentFrom 0 items).foldl extrStep ⟨f64MIN, 0, f64MAX, 0⟩

/-- Translation of Series::with_range (lib.rs lines 230 to 237). -/
def Series.with_range (s : Series) (rng : Range) : Series :=
  { vals := s.vals, rng := rng, min_index := s.min_index,
    max_index := s.max_index }

/-- Translation of Series::get (lib.rs lines 251 to 254). The Rust isize
remainder truncates toward zero (Int.tmod). For a nonempty vals the resolved
index is in bounds; indexing defaults to 0 out of bounds. -/
def Series.get (s : Series) (i : ℤ) : ℚ :=
  let n : ℤ := s.vals.length
  s.vals.getD ((i.tmod n + n).tmod n).toNat 0

/-- Translation of Series::get_normalized (lib.rs lines 256 to 258). -/
def Series.get_normalized (s : Series) (i : ℤ) : Option Unit :=
  s.rng.normalize (s.get i)

/-- Translation of Series::downsample_by (lib.rs lines 268 to 287). The for
loop over block indices 0 to m - 1 is written as a map over List.range m;
the slice vals[j..j+n] is take n of drop j; the isize divisions of the
extremum indices truncate toward zero (Int.tdiv). -/
def Series.downsample_by (s : Series) (n : ℕ) (agg : List ℚ → ℚ) : Series :=
  let m := s.vals.length / n
  { vals := (List.range m).map (fun i => agg ((s.vals.drop (i * n)).take n)),
    rng := s.rng,
    min_index := s.min_index.tdiv n,
    max_index := s.max_index.tdiv n }

/-- Translation of struct Scale (lib.rs lines 290 to 294). -/
structure Scale where
  step : ℚ
  steps : List ℚ
deriving DecidableEq

/-- Translation of Scale::from_range_with_step (lib.rs lines 312 to 321).
The while loop emits start, start + step, start + 2 * step, and so on while
the value is strictly below r.max; for a positive step this is the closed
form below, whose tick count is the ceiling of (max - start) / step, taken
at 0 when that quantity is negative. -/
def Scale.from_range_with_step (r : Range) (step : ℚ) : Scale :=
  let start := ⌊r.min / step⌋ * step + step
  let n := (⌈(r.max - start) / step⌉).toNat
  { step := step, steps := (List.range n).map (fun k : ℕ => start + (k : ℚ) * step) }

/-- The candidate factor list of Scale::from_range (lib.rs line 300), in
ascending order. -/
def facs : List ℕ := [1, 2, 3, 5, 10, 20, 30, 50]

/-- Translation of Scale::from_range (lib.rs lines 297 to 310). For a
positive width rng, mag is ten to the power (floor(log10 rng) - 1), since
floor(log10(rng) - 1.0) = floor(log10(rng)) - 1; the for loop with early
return picks the first factor satisfying the bound, that is List.find? on
the ascending factor list. For a nonpositive width, log10 yields NaN in f64,
every comparison against NaN is false, so the loop exhausts; the panic at
the end of the function is modelled as Except.error with the panic
message. -/
def Scale.from_range (r : Range) (lim : ℚ) : Except String Scale :=
  let rng := r.max - r.min
  if 0 < rng then
    let mag := (10 : ℚ) ^ (Int.log 10 rng - 1)
    match facs.find? (fun fac : ℕ => decide (rng / ((fac : ℚ) * mag) < lim)) with
    | some fac => Except.ok (Scale.from_range_with_step r ((fac : ℚ) * mag))
    | none => Except.error "unreachable"
  else Except.error "unreachable"

/-- Result of the label formatting in Scale::label_for: either an integer
rendering of the truncated tick value, or a fixed-point rendering of the
tick value with the given number of decimal places. -/
inductive LabelFmt where
  | int : ℤ → LabelFmt
  | fixed : ℚ → ℕ → LabelFmt
deriving DecidableEq

/-- Rust numeric cast from f64 to i32, truncation toward zero. -/
def truncToInt (q : ℚ) : ℤ := if 0 ≤ q then ⌊q⌋ else ⌈q⌉

/-- Translation of Scale::label_for (lib.rs lines 323 to 332). Here s is the
tick value steps[i] (total indexing with default 0; the claims only use
in-bounds indices). The decimal precision of the fixed branch is
abs(floor(log10 s)) computed from the tick value s itself; for a nonpositive
s that f64 expression is NaN and the Rust cast of NaN to usize yields 0. -/
def Scale.label_for (sc : Scale) (i : ℕ) : LabelFmt :=
  let s := sc.steps.getD i 0
  if 1 ≤ sc.step then LabelFmt.int (truncToInt s)
  else LabelFmt.fixed s (if 0 < s then (Int.log 10 s).natAbs else 0)

/-- Modelled fragment of gsod::Precipitation (gsod.rs lines 229 to 233): the
stored amount p, returned by in_inches. The attr flag is irrelevant to the
properties below and omitted. -/
structure Precipitation where
  p : ℚ
deriving DecidableEq

/-- Translation of Precipitation::in_inches (gsod.rs line 247). -/
def Precipitation.in_inches (pr : Precipitation) : ℚ := pr.p

/-- Modelled fragment of gsod::Day: its 1-based day-of-year ordinal (from
Day::date().ordinal()) and its optional precipitation record. The other
metrics are irrelevant to the properties below and omitted. -/
structure GsodDay where
  ordinal : ℕ
  precipitation : Option Precipitation
deriving DecidableEq

/-- The HashMap index built by Series::for_each_day (lib.rs lines 219 to
222): records inserted in order keyed by ordinal, last write wins, then
looked up by ordinal. -/
def lookupDay (days : List GsodDay) (o : ℕ) : Option GsodDay :=
  days.foldl (fun acc d => if d.ordinal = o then some d else acc) none

/-- The optional-scalar sequence Series::for_each_day feeds to
Series::from_iterator (lib.rs lines 224 to 227): for each calendar day of
the year in order (a Year of numDays days yields ordinals 1 to numDays), the
record for that ordinal is looked up; a missing record gives none, a present
record is passed to the extraction function f. -/
def dayInputs (numDays : ℕ) (days : List GsodDay) (f : GsodDay → Option ℚ) :
    List (Option ℚ) :=
  (List.range numDays).map (fun i =>
    match lookupDay days (i + 1) with
    | some d => f d
    | none => none)

/-- Translation of Series::for_each_day (lib.rs lines 214 to 228). -/
def Series.for_each_day (numDays : ℕ) (days : List GsodDay)
    (f : GsodDay → Option ℚ) : Series :=
  Series.from_iterator (dayInputs numDays days f)

/-- The value-extraction closure of render_precipitation (render.rs lines
774 to 779): a day record lacking a precipitation reading maps to some 0,
not to none. -/
def precipValue (day : GsodDay) : Option ℚ :=
  match day.precipitation with
  | some p => some p.in_inches
  | none => some 0

/-- Evaluation rule for Int.log at a concrete positive rational, from the
zpow sandwich characterization. -/
theorem intLog_eq_of {b : ℕ} (hb : 1 < b) {r : ℚ} (hr : 0 < r) {z : ℤ}
    (h1 : (b : ℚ) ^ z ≤ r) (h2 : r < (b : ℚ) ^ (z + 1)) : Int.log b r = z := by
  have ha : z ≤ Int.log b r := (Int.zpow_le_iff_le_log hb hr).mp h1
  have hb2 : Int.log b r < z + 1 := (Int.lt_zpow_iff_log_lt hb hr).mp h2
  omega

/-- Truncated remainder is odd in its dividend. -/
theorem neg_tmod (a b : ℤ) : (-a).tmod b = -(a.tmod b) := by
  rw [Int.tmod_def, Int.tmod_def, Int.neg_tdiv]
  ring

/-- Truncated remainder by a positive divisor is bounded below by its
negation. -/
theorem tmod_lower (i n : ℤ) (hn : 0 < n) : -n < i.tmod n := by
  rcases le_or_lt 0 i with h | h
  · have h0 : 0 ≤ i.tmod n := Int.tmod_nonneg n h
    omega
  · have h1 : (-i).tmod n < n := Int.tmod_lt_of_pos _ hn
    have h2 : (-i).tmod n = -(i.tmod n) := neg_tmod i n
    omega

/-- The Rust double-remainder idiom with truncated remainders equals the
mathematical (Euclidean) modulo for a positive modulus. -/
theorem tmod_chain (i n : ℤ) (hn : 0 < n) : (i.tmod n + n).tmod n = i % n := by
  have hub : i.tmod n < n := Int.tmod_lt_of_pos i hn
  have hlb : -n < i.tmod n := tmod_lower i n hn
  have h0 : 0 ≤ i.tmod n + n := by omega
  rw [Int.tmod_eq_emod h0 (le_of_lt hn)]
  have h1 : (i.tmod n + n) % n = i.tmod n % n := by
    conv_lhs => rw [show i.tmod n + n = i.tmod n + n * 1 by ring]
    exact Int.add_mul_emod_self_left (i.tmod n) n 1
  rw [h1, Int.tmod_def,
    show i - n * i.tdiv n = i + n * -i.tdiv n by ring]
  exact Int.add_mul_emod_self_left i n (-i.tdiv n)

/-- Claim C7: Range::intersect returns the bounding hull of the two ranges,
with min of the mins and max of the maxes, so it computes a union that
contains both inputs, and on disjoint inputs it differs from a true
intersection. -/
theorem c7_intersect_is_union :
    (∀ a b : Range, Range.intersect a b =
      { min := Min.min a.min b.min, max := Max.max a.max b.max }) ∧
    (∀ a b : Range, (Range.intersect a b).min ≤ a.min ∧
      (Range.intersect a b).min ≤ b.min ∧
      a.max ≤ (Range.intersect a b).max ∧
      b.max ≤ (Range.intersect a b).max) ∧
    Range.intersect ⟨0, 1⟩ ⟨2, 3⟩ ≠ ⟨Max.max 0 2, Min.min 1 3⟩ := by
  refine ⟨fun a b => rfl,
    fun a b => ⟨min_le_left _ _, min_le_right _ _, le_max_left _ _,
      le_max_right _ _⟩, ?_⟩
  simp only [Range.intersect, ne_eq, Range.mk.injEq, not_and]
  intro h
  norm_num at h

/-- Claim C8: whenever min and max differ, normalize and project are exact
mathematical inverses of each other. -/
theorem c8_normalize_project_inverse (r : Range) (v : ℚ) (u : Unit)
    (h : r.min ≠ r.max) :
    (r.normalize v).map r.project = some v ∧
    r.normalize (r.project u) = some u := by
  obtain ⟨uv⟩ := u
  have hr : r.max - r.min ≠ 0 := sub_ne_zero.mpr (Ne.symm h)
  constructor
  · simp only [Range.normalize, if_neg hr]
    show some (r.project ⟨(v - r.min) / (r.max - r.min)⟩) = some v
    have hv : r.min + (v - r.min) / (r.max - r.min) * (r.max - r.min) = v := by
      field_simp
    exact congrArg some hv
  · simp only [Range.normalize, Range.project, if_neg hr, Option.some.injEq,
      Unit.mk.injEq]
    field_simp

/-- Claim C8 witness: the inverse law at the range from 2 to 6, the value 3
and the unit one-quarter. -/
theorem c8_normalize_project_inverse_witness :
    (2 : ℚ) ≠ 6 ∧
    (((Range.mk 2 6).normalize 3).map (Range.mk 2 6).project = some 3 ∧
      (Range.mk 2 6).normalize ((Range.mk 2 6).project ⟨1/4⟩) = some ⟨1/4⟩) :=
  ⟨by norm_num, c8_normalize_project_inverse (Range.mk 2 6) 3 ⟨1/4⟩ (by norm_num)⟩

/-- Claim C6 counterexample: no explicit handling of a degenerate range
exists inside Range::normalize; at min = max = 5 the division by zero is
performed and its non-finite outcome (modelled none) is returned, never a
handled flat-chart value. -/
theorem c6_normalize_no_guard_counterexample :
    (Range.mk 5 5).normalize 7 = none := by
  simp [Range.normalize]

/-- Claim C6 (amended): Range::normalize applies its formula unconditionally;
whenever min = max the division by zero happens and the result is non-finite
(modelled none), so avoiding the degenerate case is a caller precondition
rather than behavior of normalize itself. -/
theorem c6_normalize_degenerate_none (r : Range) (v : ℚ) (h : r.min = r.max) :
    r.normalize v = none := by
  simp [Range.normalize, h]

/-- Claim C6 witness: the amended statement at the degenerate range with both
bounds 3 and the value 10. -/
theorem c6_normalize_degenerate_none_witness :
    (3 : ℚ) = 3 ∧ (Range.mk 3 3).normalize 10 = none :=
  ⟨rfl, c6_normalize_degenerate_none (Range.mk 3 3) 10 rfl⟩

/-- Claim C3: for a Series of nonzero length n, get resolves any integer
index, negative included, to the true mathematical modulo of the index by n,
and is therefore invariant under adding any integer multiple of n. -/
theorem c3_get_circular (s : Series) (i : ℤ) (h : 0 < s.vals.length) :
    s.get i = s.vals.getD (i % (s.vals.length : ℤ)).toNat 0 ∧
    ∀ k : ℤ, s.get (i + k * (s.vals.length : ℤ)) = s.get i := by
  have hn : 0 < (s.vals.length : ℤ) := by exact_mod_cast h
  have key : ∀ j : ℤ,
      s.get j = s.vals.getD (j % (s.vals.length : ℤ)).toNat 0 := by
    intro j
    simp only [Series.get]
    rw [tmod_chain j _ hn]
  refine ⟨key i, fun k => ?_⟩
  rw [key, key]
  have hmod : (i + k * (s.vals.length : ℤ)) % (s.vals.length : ℤ) =
      i % (s.vals.length : ℤ) := by
    rw [show i + k * (s.vals.length : ℤ) =
      i + (s.vals.length : ℤ) * k by ring]
    exact Int.add_mul_emod_self_left i (s.vals.length : ℤ) k
  rw [hmod]

/-- Claim C3 witness: circular access on a three-element Series at index -1,
which resolves to Euclidean index 2, and shift invariance there for the
multiple 2 of the length. -/
theorem c3_get_circular_witness :
    0 < (Series.mk [10, 20, 30] ⟨10, 30⟩ 0 2).vals.length ∧
    (Series.mk [10, 20, 30] ⟨10, 30⟩ 0 2).get (-1) =
      (Series.mk [10, 20, 30] ⟨10, 30⟩ 0 2).vals.getD
        ((-1 : ℤ) % ((Series.mk [10, 20, 30] ⟨10, 30⟩ 0 2).vals.length : ℤ)).toNat 0 ∧
    (Series.mk [10, 20, 30] ⟨10, 30⟩ 0 2).get
        (-1 + 2 * ((Series.mk [10, 20, 30] ⟨10, 30⟩ 0 2).vals.length : ℤ)) =
      (Series.mk [10, 20, 30] ⟨10, 30⟩ 0 2).get (-1) :=
  ⟨by decide,
    (c3_get_circular (Series.mk [10, 20, 30] ⟨10, 30⟩ 0 2) (-1) (by decide)).1,
    (c3_get_circular (Series.mk [10, 20, 30] ⟨10, 30⟩ 0 2) (-1) (by decide)).2 2⟩

/-- Claim C2: downsample_by with block size k of at least 1 yields floor(n/k)
values, the i-th being the aggregation of the contiguous k-sample block
starting at i*k (the tail remainder dropped), with the extremum indices of
the original integer-divided by k and the display range kept. -/
theorem c2_downsample_by_blocks (s : Series) (k : ℕ) (agg : List ℚ → ℚ)
    (hk : 1 ≤ k) :
    (s.downsample_by k agg).vals.length = s.vals.length / k ∧
    (∀ i, i < s.vals.length / k →
      (s.downsample_by k agg).vals.getD i 0 =
        agg ((s.vals.drop (i * k)).take k) ∧
      ((s.vals.drop (i * k)).take k).length = k) ∧
    (s.downsample_by k agg).min_index = s.min_index.tdiv k ∧
    (s.downsample_by k agg).max_index = s.max_index.tdiv k ∧
    (s.downsample_by k agg).rng = s.rng := by
  refine ⟨by simp [Series.downsample_by], ?_, rfl, rfl, rfl⟩
  intro i hi
  have hik : (i + 1) * k ≤ s.vals.length := (Nat.le_div_iff_mul_le hk).mp hi
  constructor
  · simp only [Series.downsample_by]
    rw [List.getD_eq_getElem?_getD, List.getElem?_map, List.getElem?_range hi]
    rfl
  · have h2 : i * k + k ≤ s.vals.length := by rwa [Nat.succ_mul] at hik
    simp only [List.length_take, List.length_drop]
    omega

/-- Claim C2 witness: downsampling a five-element Series by 2 with a head
aggregator gives two blocks of exactly two samples, drops the fifth sample,
and divides both extremum indices by 2. -/
theorem c2_downsample_by_blocks_witness :
    1 ≤ 2 ∧
    ((Series.mk [50, 50, 40, 40, 30] ⟨40, 50⟩ 2 0).downsample_by 2
        (fun l => l.getD 0 0)).vals.length =
      (Series.mk [50, 50, 40, 40, 30] ⟨40, 50⟩ 2 0).vals.length / 2 ∧
    ((Series.mk [50, 50, 40, 40, 30] ⟨40, 50⟩ 2 0).downsample_by 2
        (fun l => l.getD 0 0)).vals.getD 1 0 =
      (fun l : List ℚ => l.getD 0 0)
        (((Series.mk [50, 50, 40, 40, 30] ⟨40, 50⟩ 2 0).vals.drop (1 * 2)).take 2) ∧
    ((Series.mk [50, 50, 40, 40, 30] ⟨40, 50⟩ 2 0).downsample_by 2
        (fun l => l.getD 0 0)).min_index = Int.tdiv 2 2 ∧
    ((Series.mk [50, 50, 40, 40, 30] ⟨40, 50⟩ 2 0).downsample_by 2
        (fun l => l.getD 0 0)).max_index = Int.tdiv 0 2 :=
  ⟨by decide,
    (c2_downsample_by_blocks (Series.mk [50, 50, 40, 40, 30] ⟨40, 50⟩ 2 0) 2
      (fun l => l.getD 0 0) (by decide)).1,
    ((c2_downsample_by_blocks (Series.mk [50, 50, 40, 40, 30] ⟨40, 50⟩ 2 0) 2
      (fun l => l.getD 0 0) (by decide)).2.1 1 (by decide)).1,
    (c2_downsample_by_blocks (Series.mk [50, 50, 40, 40, 30] ⟨40, 50⟩ 2 0) 2
      (fun l => l.getD 0 0) (by decide)).2.2.1,
    (c2_downsample_by_blocks (Series.mk [50, 50, 40, 40, 30] ⟨40, 50⟩ 2 0) 2
      (fun l => l.getD 0 0) (by decide)).2.2.2.1⟩

/-- The extremum-tracking fields of an iteration state. -/
def extrOf (st : IterState) : ExtrState :=
  ⟨st.max, st.max_index, st.min, st.min_index⟩

/-- A missing item appends the carry-forward value and advances the index. -/
theorem iterStep_none (st : IterState) :
    iterStep st none = { st with vals := st.vals ++ [st.prev], i := st.i + 1 } :=
  rfl

/-- A present item appends the value, updates the carry-forward value, and
updates the extremum fields exactly as the running-extremum rule does. -/
theorem iterStep_some_proj (st : IterState) (v : ℚ) :
    iterStep st (some v) =
      { vals := st.vals ++ [v], prev := v,
        max := (extrStep (extrOf st) (st.i, v)).max,
        min := (extrStep (extrOf st) (st.i, v)).min,
        max_index := (extrStep (extrOf st) (st.i, v)).max_index,
        min_index := (extrStep (extrOf st) (st.i, v)).min_index,
        i := st.i + 1 } := by
  unfold iterStep extrStep extrOf
  by_cases h1 : v > st.max
  · by_cases h2 : v < st.min <;> simp [h1, h2]
  · by_cases h2 : v < st.min <;> simp [h1, h2]

/-- A missing head contributes no present pair. -/
theorem presentFrom_cons_none (k : ℕ) (l : List (Option ℚ)) :
    presentFrom k (none :: l) = presentFrom (k + 1) l := by
  simp [presentFrom, List.enumFrom]

/-- A present head contributes its index-value pair. -/
theorem presentFrom_cons_some (k : ℕ) (v : ℚ) (l : List (Option ℚ)) :
    presentFrom k (some v :: l) = (k, v) :: presentFrom (k + 1) l := by
  simp [presentFrom, List.enumFrom]

/-- The filled array has one entry per input item. -/
theorem fillForward_length (prev : ℚ) (items : List (Option ℚ)) :
    (fillForward prev items).length = items.length := by
  induction items generalizing prev with
  | nil => rfl
  | cons hd tl ih => cases hd <;> simp [fillForward, ih]

/-- Invariant of the Series::from_iterator loop: the accumulated array is
the carry-forward fill of the input, and the extremum fields are the fold of
the running-extremum rule over the present index-value pairs only. -/
theorem foldl_iterStep (items : List (Option ℚ)) :
    ∀ st : IterState,
      (items.foldl iterStep st).vals = st.vals ++ fillForward st.prev items ∧
      extrOf (items.foldl iterStep st) =
        (presentFrom st.i items).foldl extrStep (extrOf st) := by
  induction items with
  | nil => intro st; simp [fillForward, presentFrom, List.enumFrom]
  | cons hd tl ih =>
    intro st
    cases hd with
    | none =>
      rw [List.foldl_cons, iterStep_none]
      refine ⟨?_, ?_⟩
      · rw [(ih _).1]
        simp [fillForward]
      · rw [(ih _).2, presentFrom_cons_none]
        rfl
    | some v =>
      rw [List.foldl_cons, iterStep_some_proj]
      refine ⟨?_, ?_⟩
      · rw [(ih _).1]
        simp [fillForward]
      · rw [(ih _).2, presentFrom_cons_some, List.foldl_cons]
        rfl

/-- Claim C1: from_iterator returns an array of the same length as the
input, equal to the left-to-right carry-forward fill with initial carry 0,
and a Range and extremum indices equal to the fold of the strict
running-extremum rule over the present index-value pairs only, so filled
values never affect the Range or the extremum indices, and exact ties keep
the earlier index. -/
theorem c1_from_iterator_spec (items : List (Option ℚ)) :
    (Series.from_iterator items).vals = fillForward 0 items ∧
    (Series.from_iterator items).vals.length = items.length ∧
    (Series.from_iterator items).rng =
      ⟨(extremaOf items).min, (extremaOf items).max⟩ ∧
    (Series.from_iterator items).min_index =
      ((extremaOf items).min_index : ℤ) ∧
    (Series.from_iterator items).max_index =
      ((extremaOf items).max_index : ℤ) := by
  obtain ⟨h1, h2⟩ := foldl_iterStep items ⟨[], 0, f64MIN, f64MAX, 0, 0, 0⟩
  have hfill : (Series.from_iterator items).vals = fillForward 0 items := by
    show (items.foldl iterStep ⟨[], 0, f64MIN, f64MAX, 0, 0, 0⟩).vals =
      fillForward 0 items
    rw [h1]
    rfl
  refine ⟨hfill, by rw [hfill, fillForward_length], ?_, ?_, ?_⟩
  · show Range.mk (items.foldl iterStep ⟨[], 0, f64MIN, f64MAX, 0, 0, 0⟩).min
        (items.foldl iterStep ⟨[], 0, f64MIN, f64MAX, 0, 0, 0⟩).max =
      Range.mk (extremaOf items).min (extremaOf items).max
    rw [show (items.foldl iterStep ⟨[], 0, f64MIN, f64MAX, 0, 0, 0⟩).min =
        (extremaOf items).min from congrArg ExtrState.min h2,
      show (items.foldl iterStep ⟨[], 0, f64MIN, f64MAX, 0, 0, 0⟩).max =
        (extremaOf items).max from congrArg ExtrState.max h2]
  · exact congrArg (fun n : ℕ => (n : ℤ)) (congrArg ExtrState.min_index h2)
  · exact congrArg (fun n : ℕ => (n : ℤ)) (congrArg ExtrState.max_index h2)

/-- Claim C10: the precipitation extraction closure maps every day record
lacking a precipitation reading to some 0, never none, so an element of the
optional-scalar sequence handed to from_iterator is missing exactly when no
record exists for that ordinal at all; and for_each_day is exactly
from_iterator applied to that sequence. -/
theorem c10_precip_missing_iff_no_record (numDays : ℕ) (days : List GsodDay)
    (i : ℕ) (hi : i < numDays) :
    (∀ d : GsodDay, d.precipitation = none → precipValue d = some 0) ∧
    (∀ d : GsodDay, precipValue d ≠ none) ∧
    ((dayInputs numDays days precipValue).getD i none = none ↔
      lookupDay days (i + 1) = none) ∧
    Series.for_each_day numDays days precipValue =
      Series.from_iterator (dayInputs numDays days precipValue) := by
  refine ⟨fun d h => by simp [precipValue, h],
    fun d => by cases hd : d.precipitation <;> simp [precipValue, hd], ?_, rfl⟩
  have hel : (dayInputs numDays days precipValue).getD i none =
      (match lookupDay days (i + 1) with
        | some d => precipValue d
        | none => none) := by
    simp only [dayInputs]
    rw [List.getD_eq_getElem?_getD, List.getElem?_map, List.getElem?_range hi]
    rfl
  rw [hel]
  cases h : lookupDay days (i + 1) with
  | none => simp
  | some d =>
    simp only []
    constructor
    · intro hv
      cases hd : d.precipitation <;> simp [precipValue, hd] at hv
    · intro hv
      exact absurd hv (by simp)

/-- Claim C10 witness: with a three-day year and a single record at ordinal 2
that lacks a precipitation reading, day index 1 of the input sequence is
present (its record exists) even though the reading is absent. -/
theorem c10_precip_missing_iff_no_record_witness :
    1 < 3 ∧
    ((dayInputs 3 [GsodDay.mk 2 none] precipValue).getD 1 none = none ↔
      lookupDay [GsodDay.mk 2 none] 2 = none) :=
  ⟨by decide,
    (c10_precip_missing_iff_no_record 3 [GsodDay.mk 2 none] 1 (by decide)).2.2.1⟩

/-- Characterization of the tick values of from_range_with_step for a
positive step: the ticks are exactly the integer multiples of the step lying
strictly between the range bounds. -/
theorem mem_from_range_with_step (r : Range) (s : ℚ) (hs : 0 < s) (t : ℚ) :
    t ∈ (Scale.from_range_with_step r s).steps ↔
      (∃ k : ℤ, t = k * s) ∧ r.min < t ∧ t < r.max := by
  simp only [Scale.from_range_with_step]
  constructor
  · intro ht
    rcases List.mem_map.mp ht with ⟨k, hk, rfl⟩
    have hkn : k < (⌈(r.max - ((⌊r.min / s⌋ : ℚ) * s + s)) / s⌉).toNat :=
      List.mem_range.mp hk
    refine ⟨⟨⌊r.min / s⌋ + 1 + k, by push_cast; ring⟩, ?_, ?_⟩
    · have h1 : r.min / s < (⌊r.min / s⌋ : ℚ) + 1 := Int.lt_floor_add_one _
      rw [div_lt_iff₀ hs, add_mul, one_mul] at h1
      have h3 : (0 : ℚ) ≤ (k : ℚ) * s := by positivity
      linarith
    · have hk2 : (k : ℤ) < ⌈(r.max - ((⌊r.min / s⌋ : ℚ) * s + s)) / s⌉ := by
        omega
      have h4 : (k : ℚ) < (r.max - ((⌊r.min / s⌋ : ℚ) * s + s)) / s := by
        exact_mod_cast Int.lt_ceil.mp hk2
      rw [lt_div_iff₀ hs] at h4
      linarith
  · rintro ⟨⟨m, rfl⟩, hmin, hmax⟩
    have hdm : ⌊r.min / s⌋ < m := by
      refine Int.floor_lt.mpr ?_
      rw [div_lt_iff₀ hs]
      exact_mod_cast hmin
    have hmk : ((m - ⌊r.min / s⌋ - 1).toNat : ℤ) = m - ⌊r.min / s⌋ - 1 :=
      Int.toNat_of_nonneg (by omega)
    have hq : (((m - ⌊r.min / s⌋ - 1).toNat : ℕ) : ℚ) =
        (m : ℚ) - (⌊r.min / s⌋ : ℚ) - 1 := by
      exact_mod_cast hmk
    refine List.mem_map.mpr ⟨(m - ⌊r.min / s⌋ - 1).toNat,
      List.mem_range.mpr ?_, ?_⟩
    · have h5 : (((m - ⌊r.min / s⌋ - 1).toNat : ℕ) : ℚ) <
          (r.max - ((⌊r.min / s⌋ : ℚ) * s + s)) / s := by
        rw [lt_div_iff₀ hs, hq]
        have hms : ((m : ℚ) - (⌊r.min / s⌋ : ℚ) - 1) * s =
            (m : ℚ) * s - ((⌊r.min / s⌋ : ℚ) * s + s) := by ring
        rw [hms]
        linarith
      have h6 : ((m - ⌊r.min / s⌋ - 1).toNat : ℤ) <
          ⌈(r.max - ((⌊r.min / s⌋ : ℚ) * s + s)) / s⌉ :=
        Int.lt_ceil.mpr (by exact_mod_cast h5)
      omega
    · rw [hq]
      ring

/-- Consecutive ticks of from_range_with_step differ by the step. -/
theorem steps_succ_from_range_with_step (r : Range) (s : ℚ) (j : ℕ)
    (hj : j + 1 < (Scale.from_range_with_step r s).steps.length) :
    (Scale.from_range_with_step r s).steps.getD (j + 1) 0 =
      (Scale.from_range_with_step r s).steps.getD j 0 + s := by
  simp only [Scale.from_range_with_step, List.length_map,
    List.length_range] at hj
  simp only [Scale.from_range_with_step]
  rw [List.getD_eq_getElem?_getD, List.getD_eq_getElem?_getD,
    List.getElem?_map, List.getElem?_map, List.getElem?_range hj,
    List.getElem?_range (by omega : j < _)]
  simp only [Option.map_some', Option.getD_some]
  push_cast
  ring

/-- Evaluation of the candidate search on the range 40 to 50 with limit 5:
the factors 1 and 2 fail the bound and 3 is the first to satisfy it. -/
theorem find_three_forty_fifty : facs.find? (fun f : ℕ => decide
    (((Range.mk (40 : ℚ) 50).max - (Range.mk (40 : ℚ) 50).min) /
      ((f : ℚ) * (10 : ℚ) ^ (Int.log 10
        ((Range.mk (40 : ℚ) 50).max - (Range.mk (40 : ℚ) 50).min) - 1)) <
      5)) = some 3 := by
  have hsub : ((Range.mk (40 : ℚ) 50).max - (Range.mk (40 : ℚ) 50).min) = 10 := by
    show (50 : ℚ) - 40 = 10
    norm_num
  have hlog10 : Int.log 10 ((10 : ℚ)) = 1 :=
    intLog_eq_of (by norm_num) (by norm_num) (by norm_num) (by norm_num)
  have hzpow : (10 : ℚ) ^ ((1 : ℤ) - 1) = 1 := by norm_num
  simp only [hsub, hlog10, hzpow, mul_one]
  rw [show facs = [1, 2, 3, 5, 10, 20, 30, 50] from rfl,
    List.find?_cons_of_neg _ (by norm_num),
    List.find?_cons_of_neg _ (by norm_num),
    List.find?_cons_of_pos _ (by norm_num)]

/-- Claim C4: when the width is positive and some candidate factor fits,
from_range succeeds with the first fitting factor from the ascending list
times the magnitude, its ticks are exactly the multiples of the chosen step
strictly between the range bounds, consecutive ticks differing by the step;
in particular the range 40 to 50 with limit 5 gives step 3 and ticks 42, 45,
48. -/
theorem c4_from_range_first_fit_and_ticks :
    (∀ (r : Range) (lim : ℚ) (fac : ℕ),
      r.min < r.max →
      facs.find? (fun f : ℕ => decide ((r.max - r.min) /
          ((f : ℚ) * (10 : ℚ) ^ (Int.log 10 (r.max - r.min) - 1)) < lim)) =
        some fac →
      ∃ sc : Scale, Scale.from_range r lim = Except.ok sc ∧
        sc.step = fac * (10 : ℚ) ^ (Int.log 10 (r.max - r.min) - 1) ∧
        (∀ t : ℚ, t ∈ sc.steps ↔
          (∃ k : ℤ, t = k * sc.step) ∧ r.min < t ∧ t < r.max) ∧
        (∀ j : ℕ, j + 1 < sc.steps.length →
          sc.steps.getD (j + 1) 0 = sc.steps.getD j 0 + sc.step)) ∧
    Scale.from_range ⟨40, 50⟩ 5 = Except.ok ⟨3, [42, 45, 48]⟩ := by
  have hgen : ∀ (r : Range) (lim : ℚ) (fac : ℕ),
      r.min < r.max →
      facs.find? (fun f : ℕ => decide ((r.max - r.min) /
          ((f : ℚ) * (10 : ℚ) ^ (Int.log 10 (r.max - r.min) - 1)) < lim)) =
        some fac →
      ∃ sc : Scale, Scale.from_range r lim = Except.ok sc ∧
        sc.step = fac * (10 : ℚ) ^ (Int.log 10 (r.max - r.min) - 1) ∧
        (∀ t : ℚ, t ∈ sc.steps ↔
          (∃ k : ℤ, t = k * sc.step) ∧ r.min < t ∧ t < r.max) ∧
        (∀ j : ℕ, j + 1 < sc.steps.length →
          sc.steps.getD (j + 1) 0 = sc.steps.getD j 0 + sc.step) := by
    intro r lim fac hlt hfind
    have hrng : 0 < r.max - r.min := by linarith
    have hmem : fac ∈ facs := List.mem_of_find?_eq_some hfind
    have hfac : 0 < fac := by
      fin_cases hmem <;> norm_num
    have hstep : 0 < (fac : ℚ) * (10 : ℚ) ^ (Int.log 10 (r.max - r.min) - 1) := by
      have hq : (0 : ℚ) < (fac : ℚ) := by exact_mod_cast hfac
      positivity
    refine ⟨Scale.from_range_with_step r
        ((fac : ℚ) * (10 : ℚ) ^ (Int.log 10 (r.max - r.min) - 1)),
      ?_, rfl, ?_, ?_⟩
    · simp only [Scale.from_range]
      rw [if_pos hrng, hfind]
    · intro t
      exact mem_from_range_with_step r _ hstep t
    · intro j hj
      exact steps_succ_from_range_with_step r _ j hj
  refine ⟨hgen, ?_⟩
  have hsub : ((Range.mk (40 : ℚ) 50).max - (Range.mk (40 : ℚ) 50).min) = 10 := by
    show (50 : ℚ) - 40 = 10
    norm_num
  have hlog10 : Int.log 10 ((10 : ℚ)) = 1 :=
    intLog_eq_of (by norm_num) (by norm_num) (by norm_num) (by norm_num)
  have hzpow : (10 : ℚ) ^ ((1 : ℤ) - 1) = 1 := by norm_num
  have hfind3 := find_three_forty_fifty
  have hok : Scale.from_range ⟨40, 50⟩ 5 =
      Except.ok (Scale.from_range_with_step ⟨40, 50⟩
        ((3 : ℕ) * (10 : ℚ) ^ (Int.log 10
          ((Range.mk (40 : ℚ) 50).max - (Range.mk (40 : ℚ) 50).min) - 1))) := by
    simp only [Scale.from_range]
    rw [if_pos (show (0 : ℚ) <
        (Range.mk (40 : ℚ) 50).max - (Range.mk (40 : ℚ) 50).min from by
      rw [hsub]; norm_num), hfind3]
  rw [hok, hsub, hlog10]
  congr 1
  simp only [Scale.from_range_with_step, hzpow, mul_one]
  have hfloor : ⌊(Range.mk (40 : ℚ) 50).min / ((3 : ℕ) : ℚ)⌋ = 13 := by
    show ⌊(40 : ℚ) / ((3 : ℕ) : ℚ)⌋ = 13
    norm_num
  rw [hfloor]
  have hstart : ((13 : ℤ) : ℚ) * ((3 : ℕ) : ℚ) + ((3 : ℕ) : ℚ) = 42 := by
    norm_num
  rw [hstart]
  have hceil : (⌈((Range.mk (40 : ℚ) 50).max - (42 : ℚ)) / ((3 : ℕ) : ℚ)⌉).toNat = 3 := by
    have hc : ⌈((Range.mk (40 : ℚ) 50).max - (42 : ℚ)) / ((3 : ℕ) : ℚ)⌉ = 3 := by
      show ⌈((50 : ℚ) - (42 : ℚ)) / ((3 : ℕ) : ℚ)⌉ = 3
      norm_num [Int.ceil_eq_iff]
    rw [hc]
    rfl
  rw [hceil]
  rw [show List.range 3 = [0, 1, 2] from rfl]
  simp only [List.map_cons, List.map_nil, Scale.mk.injEq]
  norm_num

/-- Claim C5: when the width is positive but no candidate factor satisfies
the bound, from_range does not return a Scale; it fails with the explicit
fatal error of the panic branch, never a silently degraded scale. -/
theorem c5_from_range_exhaustion_error (r : Range) (lim : ℚ)
    (hrng : 0 < r.max - r.min)
    (hnone : facs.find? (fun f : ℕ => decide ((r.max - r.min) /
        ((f : ℚ) * (10 : ℚ) ^ (Int.log 10 (r.max - r.min) - 1)) < lim)) = none) :
    Scale.from_range r lim = Except.error "unreachable" := by
  simp only [Scale.from_range]
  rw [if_pos hrng, hnone]

/-- Evaluation of the candidate search on the range 0 to 60 with limit 1:
every factor fails the bound, so the search is exhausted. -/
theorem find_none_sixty : facs.find? (fun f : ℕ => decide
    (((Range.mk (0 : ℚ) 60).max - (Range.mk (0 : ℚ) 60).min) /
      ((f : ℚ) * (10 : ℚ) ^ (Int.log 10
        ((Range.mk (0 : ℚ) 60).max - (Range.mk (0 : ℚ) 60).min) - 1)) <
      1)) = none := by
  have hsub : ((Range.mk (0 : ℚ) 60).max - (Range.mk (0 : ℚ) 60).min) = 60 := by
    show (60 : ℚ) - 0 = 60
    norm_num
  have hlog60 : Int.log 10 ((60 : ℚ)) = 1 :=
    intLog_eq_of (by norm_num) (by norm_num) (by norm_num) (by norm_num)
  have hzpow : (10 : ℚ) ^ ((1 : ℤ) - 1) = 1 := by norm_num
  simp only [hsub, hlog60, hzpow, mul_one]
  rw [show facs = [1, 2, 3, 5, 10, 20, 30, 50] from rfl,
    List.find?_cons_of_neg _ (by norm_num),
    List.find?_cons_of_neg _ (by norm_num),
    List.find?_cons_of_neg _ (by norm_num),
    List.find?_cons_of_neg _ (by norm_num),
    List.find?_cons_of_neg _ (by norm_num),
    List.find?_cons_of_neg _ (by norm_num),
    List.find?_cons_of_neg _ (by norm_num),
    List.find?_cons_of_neg _ (by norm_num)]
  rfl

/-- Claim C5 witness: the range 0 to 60 with limit 1 exhausts all candidate
factors and from_range fails with the explicit error. -/
theorem c5_from_range_exhaustion_error_witness :
    (0 : ℚ) < (Range.mk (0 : ℚ) 60).max - (Range.mk (0 : ℚ) 60).min ∧
    Scale.from_range ⟨0, 60⟩ 1 = Except.error "unreachable" :=
  ⟨by norm_num, c5_from_range_exhaustion_error ⟨0, 60⟩ 1 (by norm_num)
    find_none_sixty⟩

/-- Claim C4 witness: the worked example instantiating the general statement
at the range 40 to 50, limit 5 and factor 3, together with the literal
resulting scale. -/
theorem c4_from_range_first_fit_and_ticks_witness :
    (Range.mk (40 : ℚ) 50).min < (Range.mk (40 : ℚ) 50).max ∧
    facs.find? (fun f : ℕ => decide
      (((Range.mk (40 : ℚ) 50).max - (Range.mk (40 : ℚ) 50).min) /
        ((f : ℚ) * (10 : ℚ) ^ (Int.log 10
          ((Range.mk (40 : ℚ) 50).max - (Range.mk (40 : ℚ) 50).min) - 1)) <
        5)) = some 3 ∧
    (∃ sc : Scale, Scale.from_range ⟨40, 50⟩ 5 = Except.ok sc ∧
      sc.step = (3 : ℕ) * (10 : ℚ) ^ (Int.log 10
        ((Range.mk (40 : ℚ) 50).max - (Range.mk (40 : ℚ) 50).min) - 1)) ∧
    Scale.from_range ⟨40, 50⟩ 5 = Except.ok ⟨3, [42, 45, 48]⟩ := by
  refine ⟨by norm_num, find_three_forty_fifty, ?_,
    c4_from_range_first_fit_and_ticks.2⟩
  obtain ⟨sc, h1, h2, _, _⟩ :=
    c4_from_range_first_fit_and_ticks.1 ⟨40, 50⟩ 5 3 (by norm_num)
      find_three_forty_fifty
  exact ⟨sc, h1, h2⟩

/-- Evaluation of from_range_with_step on the range 2.2 to 2.8 with step
one half: the only tick is 2.5. -/
theorem from_range_with_step_half : Scale.from_range_with_step
    (Range.mk (11/5 : ℚ) (14/5)) (1/2) = ⟨1/2, [5/2]⟩ := by
  simp only [Scale.from_range_with_step]
  have hfloor : ⌊(Range.mk (11/5 : ℚ) (14/5)).min / ((1 : ℚ)/2)⌋ = 4 := by
    show ⌊(11/5 : ℚ) / ((1 : ℚ)/2)⌋ = 4
    norm_num
  rw [hfloor]
  have hstart : ((4 : ℤ) : ℚ) * ((1 : ℚ)/2) + ((1 : ℚ)/2) = 5/2 := by norm_num
  rw [hstart]
  have hceil : (⌈((Range.mk (11/5 : ℚ) (14/5)).max - (5/2 : ℚ)) / ((1 : ℚ)/2)⌉).toNat = 1 := by
    have hc : ⌈((Range.mk (11/5 : ℚ) (14/5)).max - (5/2 : ℚ)) / ((1 : ℚ)/2)⌉ = 1 := by
      show ⌈((14/5 : ℚ) - (5/2 : ℚ)) / ((1 : ℚ)/2)⌉ = 1
      norm_num [Int.ceil_eq_iff]
    rw [hc]
    rfl
  rw [hceil]
  rw [show List.range 1 = [0] from rfl]
  simp only [List.map_cons, List.map_nil, Scale.mk.injEq]
  norm_num

/-- Claim C9 counterexample: on the scale built for the range 2.2 to 2.8
with step one half, the label of the tick 2.5 is formatted with zero decimal
places, not with the one decimal place implied by the step's order of
magnitude, because label_for derives the precision from the tick value
itself. -/
theorem c9_label_precision_counterexample :
    (Scale.from_range_with_step (Range.mk (11/5 : ℚ) (14/5)) (1/2)).label_for 0 ≠
      LabelFmt.fixed (5/2)
        ((Int.log 10
          ((Scale.from_range_with_step (Range.mk (11/5 : ℚ) (14/5)) (1/2)).step)).natAbs) := by
  rw [from_range_with_step_half]
  have hlogHalf : Int.log 10 ((1 : ℚ)/2) = -1 := by
    have h : ((1 : ℚ)/2) = ((2 : ℚ))⁻¹ := by norm_num
    rw [h, Int.log_inv]
    have hc : Int.clog 10 (2 : ℚ) = 1 := by
      have h1 : Int.clog 10 (2 : ℚ) = Nat.clog 10 ⌈(2 : ℚ)⌉₊ :=
        Int.clog_of_one_le_right 10 (by norm_num)
      rw [h1, show ⌈(2 : ℚ)⌉₊ = 2 from by norm_num]
      exact_mod_cast Nat.clog_eq_one (by norm_num) (by norm_num)
    rw [hc]
  have hlogTick : Int.log 10 ((5 : ℚ)/2) = 0 :=
    intLog_eq_of (by norm_num) (by norm_num) (by norm_num) (by norm_num)
  have hlabel : (Scale.mk ((1 : ℚ)/2) [5/2]).label_for 0 = LabelFmt.fixed (5/2) 0 := by
    simp only [Scale.label_for, List.getD_cons_zero]
    rw [if_neg (by norm_num), if_pos (by norm_num), hlogTick]
    rfl
  rw [hlabel, hlogHalf]
  simp only [ne_eq, LabelFmt.fixed.injEq, not_and]
  intro h
  norm_num

/-- Claim C9 (amended): label_for formats the tick as a truncated integer
when the step is at least 1; otherwise it formats the tick value with a
decimal precision equal to the absolute floor of the base-10 logarithm of
the tick value itself (not of the step), for positive tick values. -/
theorem c9_label_for_amended (sc : Scale) (i : ℕ) (hi : i < sc.steps.length) :
    (1 ≤ sc.step → sc.label_for i = LabelFmt.int (truncToInt (sc.steps.getD i 0))) ∧
    (¬ 1 ≤ sc.step → 0 < sc.steps.getD i 0 →
      sc.label_for i = LabelFmt.fixed (sc.steps.getD i 0)
        ((Int.log 10 (sc.steps.getD i 0)).natAbs)) := by
  constructor
  · intro h
    simp only [Scale.label_for, if_pos h]
  · intro h hpos
    simp only [Scale.label_for, if_neg h, if_pos hpos]

/-- Claim C9 witness: the amended statement at a concrete scale with step
one half and single tick one half, whose label has one decimal place, and at
a concrete scale with step 3 and tick 42, whose label is the integer 42. -/
theorem c9_label_for_amended_witness :
    (0 < (Scale.mk ((1 : ℚ)/2) [1/2]).steps.length ∧
      ¬ 1 ≤ (Scale.mk ((1 : ℚ)/2) [1/2]).step ∧
      0 < (Scale.mk ((1 : ℚ)/2) [1/2]).steps.getD 0 0 ∧
      (Scale.mk ((1 : ℚ)/2) [1/2]).label_for 0 =
        LabelFmt.fixed ((Scale.mk ((1 : ℚ)/2) [1/2]).steps.getD 0 0)
          ((Int.log 10 ((Scale.mk ((1 : ℚ)/2) [1/2]).steps.getD 0 0)).natAbs)) ∧
    (0 < (Scale.mk (3 : ℚ) [42]).steps.length ∧
      1 ≤ (Scale.mk (3 : ℚ) [42]).step ∧
      (Scale.mk (3 : ℚ) [42]).label_for 0 =
        LabelFmt.int (truncToInt ((Scale.mk (3 : ℚ) [42]).steps.getD 0 0))) :=
  ⟨⟨by norm_num, by norm_num, by norm_num,
    (c9_label_for_amended (Scale.mk ((1 : ℚ)/2) [1/2]) 0 (by norm_num)).2
      (by norm_num) (by norm_num)⟩,
    ⟨by norm_num, by norm_num,
      (c9_label_for_amended (Scale.mk (3 : ℚ) [42]) 0 (by norm_num)).1
        (by norm_num)⟩⟩

end Weather
